import Mathlib

/-!
# blocace: chain manager and peer broadcast

A shallow embedding of `blockchain/blockchain.go` and `p2p/p2p.go`.

Conventions of the embedding:

* a Go `[]byte` is a list of bytes; the nil slice and the empty slice are both `[]`;
* a Go `error` result is an `Option Error` (`none` is `nil`);
* the bolt database behind the `*bolt.DB` pointer is passed explicitly: an operation takes the
  chain handle, which carries the database state, and returns the updated handle;
* a call that can end the process (`log.Fatal`) or panic (`log.Panic`, a nil dereference)
  returns an `Outcome`;
* what the code writes with `log` is returned as a list of `LogEntry`;
* functions of the repository that are not in the two source files (`NewBlock`, `Persist`,
  `DeserializeBlock`, ...) are fields of `Collaborators`; `specModel` is the instance that
  follows the specification's description of them.
-/

namespace Blocace

/-! ## Bytes, errors, outcomes -/

/-- One byte. -/
abbrev Byte := Fin 256

/-- A Go byte slice or string. -/
abbrev Bytes := List Byte

/-- The error values that occur in the two source files and in the library calls they make. -/
inductive Error
  /-- bolt: the database is not open (`View`, `Update`). -/
  | ErrDatabaseNotOpen
  /-- bolt: `Put` with an empty key. -/
  | ErrKeyRequired
  /-- bolt: `Put` with a key longer than `MaxKeySize`. -/
  | ErrKeyTooLarge
  /-- bolt: `Put` with a value longer than `MaxValueSize`. -/
  | ErrValueTooLarge
  /-- bolt: `Open` failed. -/
  | ErrOpen
  /-- strconv: `ErrSyntax`. -/
  | ErrSyntax
  /-- strconv: `ErrRange`. -/
  | ErrRange
  /-- net: the value `&net.ParseError{}`. -/
  | ParseError
  /-- noise: an error of `ctx.DecodeMessage()`. -/
  | decode (code : Nat)
  /-- noise: an error of `Node.SendMessage`. -/
  | send (code : Nat)
  /-- Any other error of a collaborator. -/
  | other (code : Nat)
  deriving DecidableEq, Repr

/-- How a call ends: it returns, the process exits through `log.Fatal`, or it panics. -/
inductive Outcome (α : Type) where
  | ok (a : α)
  | fatal (msg : String)
  | panic
  deriving DecidableEq, Repr

/-- A line written through the logger. -/
inductive LogEntry
  /-- A call `log.Error(err)`. -/
  | error (err : Error)
  /-- The debug line "number of transactions in the block:". -/
  | debugTransactions (n : Int)
  /-- The debug line "start indexing the block:". -/
  | debugStart (start : Int)
  /-- The debug line "end indexing the block:" with the duration in milliseconds. -/
  | debugEnd (stop : Int) (durationMs : Int)
  deriving DecidableEq, Repr

/-! ## Go integer conversions and `strconv` -/

/-- Conversion to `int64`: two's complement wrap-around. -/
def int64 (z : Int) : Int := (z + 2 ^ 63) % 2 ^ 64 - 2 ^ 63

/-- Conversion to `uint64`. -/
def uint64 (z : Int) : Nat := (z % 2 ^ 64).toNat

/-- The largest `uint64`. -/
def maxUint64 : Nat := 2 ^ 64 - 1

/-- The digit loop of `strconv.ParseUint(s, 10, 64)`: `n` is the value read so far. -/
def parseUintLoop : Bytes → Nat → Nat × Option Error
  | [], n => (n, none)
  | c :: cs, n =>
    if 48 ≤ c.val ∧ c.val ≤ 57 then
      if n ≥ maxUint64 / 10 + 1 then (maxUint64, some Error.ErrRange)
      else
        let n1 := n * 10 + (c.val - 48)
        if n1 > maxUint64 then (maxUint64, some Error.ErrRange)
        else parseUintLoop cs n1
    else (0, some Error.ErrSyntax)

/-- Go `strconv.ParseUint(s, 10, 64)`. -/
def ParseUint (s : Bytes) : Nat × Option Error :=
  if s = [] then (0, some Error.ErrSyntax) else parseUintLoop s 0

/-- Go `strconv.ParseInt(s, 10, 64)`: the value and the error. -/
def ParseInt (s : Bytes) : Int × Option Error :=
  match s with
  | [] => (0, some Error.ErrSyntax)
  | c :: cs =>
    let neg : Bool := c.val = 45
    let s1 : Bytes := if c.val = 43 ∨ c.val = 45 then cs else c :: cs
    let r := ParseUint s1
    if r.2 = some Error.ErrSyntax then (0, r.2)
    else if ¬ neg ∧ r.1 ≥ 2 ^ 63 then (2 ^ 63 - 1, some Error.ErrRange)
    else if neg ∧ r.1 > 2 ^ 63 then (-(2 ^ 63), some Error.ErrRange)
    else
      let n := int64 (r.1 : Int)
      (if neg then int64 (-n) else n, none)

/-- The decimal digits of `u`, most significant first, in front of `acc`. -/
def formatBits : Nat → Nat → Bytes → Bytes
  | 0, _, acc => acc
  | fuel + 1, u, acc =>
    if u < 10 then Fin.ofNat (48 + u) :: acc
    else formatBits fuel (u / 10) (Fin.ofNat (48 + u % 10) :: acc)

/-- Go `strconv.FormatInt(i, 10)` for an `int64` value `i`. -/
def FormatInt (i : Int) : Bytes :=
  if i < 0 then (45 : Byte) :: formatBits 20 (uint64 (-i)) [] else formatBits 20 (uint64 i) []

/-- The decimal string of a natural number: its base-ten digits, most significant first, as
the bytes '0' to '9'; the string "0" for zero. The digits are the ones of `Nat.digits`. -/
def decimal (n : Nat) : Bytes :=
  if n = 0 then [48]
  else (Nat.digits 10 n).reverse.map (fun d => (Fin.ofNat (48 + d) : Byte))

/-! ## The bolt store -/

/-- A bolt bucket: the value stored under each key. -/
structure Bucket where
  entries : Bytes → Option Bytes

/-- The bucket with no key. -/
def Bucket.empty : Bucket := ⟨fun _ => none⟩

/-- bolt `MaxKeySize`. -/
def MaxKeySize : Nat := 32768

/-- bolt `MaxValueSize`. -/
def MaxValueSize : Nat := 2 ^ 31 - 2

/-- bolt `Bucket.Get`: `none` is the nil slice returned for a key that is not there. -/
def Bucket.Get (b : Bucket) (key : Bytes) : Option Bytes := b.entries key

/-- bolt `Bucket.Put` in a writable transaction: the bucket afterwards and the error. -/
def Bucket.Put (b : Bucket) (key value : Bytes) : Bucket × Option Error :=
  if key.length = 0 then (b, some Error.ErrKeyRequired)
  else if key.length > MaxKeySize then (b, some Error.ErrKeyTooLarge)
  else if value.length > MaxValueSize then (b, some Error.ErrValueTooLarge)
  else (⟨fun k => if k = key then some value else b.entries k⟩, none)

/-- The named buckets of a database file: `none` is a bucket that does not exist. -/
structure Store where
  blocks : Option Bucket
  accounts : Option Bucket

/-- A database file without buckets. -/
def Store.empty : Store := ⟨none, none⟩

/-- The state behind a `*bolt.DB`. -/
structure DB where
  opened : Bool
  store : Store

/-- The key `[]byte("l")` of the tip hash. -/
def keyL : Bytes := [108]

/-- The key `[]byte("b")` of the height. -/
def keyB : Bytes := [98]

/-! ## Blocks, accounts and the chain handle -/

/-- Modelled from the spec: the type `Transaction` is declared outside the two source files; the
chain manager never looks inside one, so it is a byte string here. -/
abbrev Transaction := Bytes

/-- Modelled from the spec: the type `Block` is declared outside the two source files. The
fields are the ones the source reads (`PrevBlockHash`, `TotalTransactions`) and the ones the
specification lists (transactions, height, content hash). -/
structure Block where
  PrevBlockHash : Bytes
  Height : Nat
  Hash : Bytes
  TotalTransactions : Nat
  Transactions : List Transaction
  deriving DecidableEq, Repr

/-- Modelled from the spec: the type `Account` is declared outside the two source files; the
specification treats it as a serializable record whose contents the core does not interpret. -/
structure Account where
  raw : Bytes
  deriving DecidableEq, Repr

/-- Modelled from the spec: the type `Search` is declared outside the two source files; the
specification describes it as a sink, so it is the list of the blocks handed to `IndexBlock`,
oldest first. -/
structure SearchIndex where
  indexed : List Block
  deriving DecidableEq, Repr

/-- The functions of the repository that the two source files call and do not define. -/
structure Collaborators where
  /-- The call `NewBlock(txs, prevBlockHash, height)`. -/
  NewBlock : List Transaction → Bytes → Nat → Block
  /-- The call `block.Persist(db)`: the returned hash and error, and the database afterwards. -/
  Persist : Block → DB → (Bytes × Option Error) × DB
  /-- The call `DeserializeBlock(d)`: it may panic, or return a pointer that may be nil. -/
  DeserializeBlock : Bytes → Outcome (Option Block)
  /-- The call `search.IndexBlock(block)`. -/
  IndexBlock : SearchIndex → Block → SearchIndex
  /-- The call `NewSearch(db, dataDir)`. -/
  NewSearch : DB → String → Except Error SearchIndex
  /-- The call `NewCoinbaseTX()`. -/
  NewCoinbaseTX : Transaction
  /-- The call `NewGenesisBlock(cbtx, db)`. -/
  NewGenesisBlock : Transaction → DB → Block
  /-- The call `account.Serialize()`. -/
  Serialize : Account → Bytes

/-- Go `type Blockchain struct`: the database pointer is replaced by the database state. -/
structure Blockchain where
  Tip : Bytes
  cursor : Bytes
  Db : DB
  dataDir : String
  Search : SearchIndex

/-- Go `Blockchain.RegisterAccount`: the returned error, the handle with the database
afterwards, and the log. -/
def RegisterAccount (E : Collaborators) (bc : Blockchain) (address : Bytes)
    (account : Account) : Option Error × Blockchain × List LogEntry :=
  let result := E.Serialize account
  if bc.Db.opened then
    -- the update transaction: `CreateBucketIfNotExists`, then `Put`
    let aBucket := bc.Db.store.accounts.getD Bucket.empty
    let r := aBucket.Put address result
    let lg := match r.2 with
      | some e => [LogEntry.error e]
      | none => []
    (none, { bc with Db := { bc.Db with store := { bc.Db.store with accounts := some r.1 } } }, lg)
  else
    (some Error.ErrDatabaseNotOpen, bc, [])

/-- The read transaction of `AddBlock`: `lastHash`, `lastHeight` and the error of `View`. A
database that is not open returns the error without running the closure; a missing blocks
bucket is a nil `*Bucket`, and `Get` on it panics. -/
def readTipAndHeight (db : DB) : Outcome (Option Bytes × Option Bytes × Option Error) :=
  if db.opened then
    match db.store.blocks with
    | none => Outcome.panic
    | some bBucket => Outcome.ok (bBucket.Get keyL, bBucket.Get keyB, none)
  else
    Outcome.ok (none, none, some Error.ErrDatabaseNotOpen)

/-- The block that `AddBlock` builds from what the read transaction returned. -/
def blockToAdd (E : Collaborators) (txs : List Transaction) (lastHash lastHeight : Option Bytes) :
    Block :=
  let lastHeightInt := (ParseInt (lastHeight.getD [])).1
  E.NewBlock txs (lastHash.getD []) (uint64 (int64 (lastHeightInt + 1)))

/-- Go `Blockchain.AddBlock`: the handle afterwards and the log. `start` and `stop` are the two
readings of `time.Now().UnixNano()`. The variable `err` is assigned by `View`, then by
`ParseInt`, then by `Persist`, and tested once, at the end. -/
def AddBlock (E : Collaborators) (bc : Blockchain) (txs : List Transaction) (start stop : Int) :
    Outcome (Blockchain × List LogEntry) :=
  match readTipAndHeight bc.Db with
  | Outcome.panic => Outcome.panic
  | Outcome.fatal m => Outcome.fatal m
  | Outcome.ok (lastHash, lastHeight, _) =>
    let newBlock := blockToAdd E txs lastHash lastHeight
    let p := E.Persist newBlock bc.Db
    let err := p.1.2
    let search := E.IndexBlock bc.Search newBlock
    let lg := [LogEntry.debugTransactions (int64 newBlock.TotalTransactions),
               LogEntry.debugStart start,
               LogEntry.debugEnd stop (Int.tdiv (int64 (stop - start)) 1000000)]
    let lgErr := match err with
      | some e => [LogEntry.error e]
      | none => []
    Outcome.ok ({ bc with Tip := p.1.1, Db := p.2, Search := search }, lg ++ lgErr)

/-- The read transaction of `Next`: the pointer `block` and the error of `View`. -/
def readAtCursor (E : Collaborators) (bc : Blockchain) : Outcome (Option Block × Option Error) :=
  if bc.Db.opened then
    match bc.Db.store.blocks with
    | none => Outcome.panic
    | some b =>
      match E.DeserializeBlock ((b.Get bc.cursor).getD []) with
      | Outcome.ok block => Outcome.ok (block, none)
      | Outcome.fatal m => Outcome.fatal m
      | Outcome.panic => Outcome.panic
  else
    Outcome.ok (none, some Error.ErrDatabaseNotOpen)

/-- Go `Blockchain.Next`: the returned pointer (`none` is nil), the handle afterwards and the
log. The assignment `bc.cursor = block.PrevBlockHash` dereferences `block`. -/
def Next (E : Collaborators) (bc : Blockchain) :
    Outcome (Option Block × Blockchain × List LogEntry) :=
  match readAtCursor E bc with
  | Outcome.panic => Outcome.panic
  | Outcome.fatal m => Outcome.fatal m
  | Outcome.ok (block, err) =>
    let lg := match err with
      | some e => [LogEntry.error e]
      | none => []
    match block with
    | none => Outcome.panic
    | some blk => Outcome.ok (some blk, { bc with cursor := blk.PrevBlockHash }, lg)

/-! ## The file system at start-up -/

/-- What is at a path when the process starts. -/
inductive PathState
  /-- Nothing is at the path and its directory can be searched: `stat` fails with `ENOENT`. -/
  | absent
  /-- Nothing is at the path and no file can be created there, because the directory of the path
  does not exist or the path is empty: `stat` fails with `ENOENT`. -/
  | noParent
  /-- A regular file; `some s` when it is a bolt database with the buckets `s`. -/
  | file (content : Option Store)
  /-- A component of the path before the last is a regular file: nothing is at the path, and
  `stat` fails with `ENOTDIR`. -/
  | parentNotDir
  /-- The directory cannot be searched: `stat` fails with `EACCES`, whether or not a file is
  there. -/
  | denied (present : Bool)

/-- The file system: the state of every path. -/
abbrev FileSystem := String → PathState

/-- The `errno` values of a failed `stat`. -/
inductive Errno
  | ENOENT
  | ENOTDIR
  | EACCES
  deriving DecidableEq, Repr

/-- A file exists at the path. -/
def PathState.present : PathState → Bool
  | PathState.absent => false
  | PathState.noParent => false
  | PathState.file _ => true
  | PathState.parentNotDir => false
  | PathState.denied p => p

/-- Go `os.Stat(name)`: the error (`none` when the call succeeds). -/
def osStat (fs : FileSystem) (name : String) : Option Errno :=
  match fs name with
  | PathState.absent => some Errno.ENOENT
  | PathState.noParent => some Errno.ENOENT
  | PathState.file _ => none
  | PathState.parentNotDir => some Errno.ENOTDIR
  | PathState.denied _ => some Errno.EACCES

/-- Go `os.IsNotExist(err)`: true for `ENOENT` only. -/
def osIsNotExist : Option Errno → Bool
  | some Errno.ENOENT => true
  | _ => false

/-- Go `DbExists`. -/
def DbExists (fs : FileSystem) (dbFile : String) : Bool :=
  if osIsNotExist (osStat fs dbFile) then false else true

/-- The file system with `st` at `path`. -/
def FileSystem.set (fs : FileSystem) (path : String) (st : PathState) : FileSystem :=
  fun q => if q = path then st else fs q

/-- bolt `Open(path, 0600, nil)`: an absent file in an existing directory is created as an empty
database; a file that is a database is opened; every other case is an error. -/
def boltOpen (fs : FileSystem) (path : String) : FileSystem × Except Error DB :=
  match fs path with
  | PathState.absent =>
    (fs.set path (PathState.file (some Store.empty)), Except.ok ⟨true, Store.empty⟩)
  | PathState.noParent => (fs, Except.error Error.ErrOpen)
  | PathState.file (some s) => (fs, Except.ok ⟨true, s⟩)
  | PathState.file none => (fs, Except.error Error.ErrOpen)
  | PathState.parentNotDir => (fs, Except.error Error.ErrOpen)
  | PathState.denied _ => (fs, Except.error Error.ErrOpen)

/-- The message of `log.Fatal` in `NewBlockchain`: the error `NotFound`. -/
def NotFound : String := "No existing blockchain found. Create one first."

/-- The message of `log.Fatal` in `CreateBlockchain`: the error `AlreadyExists`. -/
def AlreadyExists : String := "Blockchain already exists."

/-- Go `NewBlockchain`: the file system afterwards and the returned handle. The handle holds
the bytes of the tip as they were read: the code keeps the slice that `Get` returned, and what
later writes do to that slice is not modelled. -/
def NewBlockchain (E : Collaborators) (fs : FileSystem) (dbFile dataDir : String) :
    FileSystem × Outcome Blockchain :=
  if DbExists fs dbFile = false then (fs, Outcome.fatal NotFound)
  else
    match boltOpen fs dbFile with
    | (fs1, Except.error _) => (fs1, Outcome.panic)
    | (fs1, Except.ok db) =>
      match db.store.blocks with
      | none => (fs1, Outcome.panic)
      | some bBucket =>
        let tip := (bBucket.Get keyL).getD []
        match E.NewSearch db dataDir with
        | Except.error _ => (fs1, Outcome.panic)
        | Except.ok blockchainSearch =>
          (fs1, Outcome.ok ⟨tip, tip, db, dataDir, blockchainSearch⟩)

/-- Go `CreateBlockchain`: the file system afterwards and the returned handle. -/
def CreateBlockchain (E : Collaborators) (fs : FileSystem) (dbFile dataDir : String) :
    FileSystem × Outcome Blockchain :=
  if DbExists fs dbFile then (fs, Outcome.fatal AlreadyExists)
  else
    match boltOpen fs dbFile with
    | (fs1, Except.error _) => (fs1, Outcome.panic)
    | (fs1, Except.ok db) =>
      let cbtx := E.NewCoinbaseTX
      let genesisBlock := E.NewGenesisBlock cbtx db
      let p := E.Persist genesisBlock db
      let fs2 := fs1.set dbFile (PathState.file (some p.2.store))
      match p.1.2 with
      | some _ => (fs2, Outcome.panic)
      | none =>
        match E.NewSearch p.2 dataDir with
        | Except.error _ => (fs2, Outcome.panic)
        | Except.ok blockchainSearch =>
          (fs2, Outcome.ok ⟨p.1.1, p.1.1, p.2, dataDir, blockchainSearch⟩)

/-! ## The collaborators as the specification describes them -/

/-- Modelled from the spec: the serialization of a number, a byte string and a transaction list
(the encoding is not under the source files and the specification leaves it open, asking only
that deserializing a serialized value gives the value back). A number is written in unary. -/
def encNat : Nat → Bytes
  | 0 => [0]
  | n + 1 => 1 :: encNat n

/-- Modelled from the spec: the serialization of a byte string, see `encNat`. -/
def encBytes : Bytes → Bytes
  | [] => [0]
  | b :: bs => 1 :: b :: encBytes bs

/-- Modelled from the spec: the serialization of a transaction list, see `encNat`. -/
def encTxs : List Transaction → Bytes
  | [] => [0]
  | t :: ts => 1 :: (encBytes t ++ encTxs ts)

/-- Modelled from the spec: `Block.Serialize`, not under the source files. -/
def Block.Serialize (b : Block) : Bytes :=
  encBytes b.PrevBlockHash ++ (encNat b.Height ++ (encBytes b.Hash ++
    (encNat b.TotalTransactions ++ encTxs b.Transactions)))

/-- Modelled from the spec: part of `DeserializeBlock`, the reader of a number written by
`encNat`: the number and the bytes after it. -/
def decNat : Bytes → Option (Nat × Bytes)
  | [] => none
  | c :: cs =>
    if c.val = 0 then some (0, cs)
    else if c.val = 1 then (decNat cs).map (fun r => (r.1 + 1, r.2))
    else none

/-- Modelled from the spec: part of `DeserializeBlock`, the reader of a byte string written by
`encBytes`. -/
def decBytes : Nat → Bytes → Option (Bytes × Bytes)
  | 0, _ => none
  | _ + 1, [] => none
  | fuel + 1, c :: cs =>
    if c.val = 0 then some ([], cs)
    else if c.val = 1 then
      match cs with
      | [] => none
      | b :: rest => (decBytes fuel rest).map (fun r => (b :: r.1, r.2))
    else none

/-- Modelled from the spec: part of `DeserializeBlock`, the reader of a transaction list written
by `encTxs`. -/
def decTxs : Nat → Bytes → Option (List Transaction × Bytes)
  | 0, _ => none
  | _ + 1, [] => none
  | fuel + 1, c :: cs =>
    if c.val = 0 then some ([], cs)
    else if c.val = 1 then
      match decBytes (cs.length + 1) cs with
      | none => none
      | some (t, rest) => (decTxs fuel rest).map (fun r => (t :: r.1, r.2))
    else none

/-- Modelled from the spec: part of `DeserializeBlock`, the reader of a block written by
`Block.Serialize`; `none` when the bytes are not one. -/
def decodeBlock (d : Bytes) : Option Block :=
  match decBytes (d.length + 1) d with
  | none => none
  | some (prev, r1) =>
    match decNat r1 with
    | none => none
    | some (height, r2) =>
      match decBytes (r2.length + 1) r2 with
      | none => none
      | some (hash, r3) =>
        match decNat r3 with
        | none => none
        | some (total, r4) =>
          match decTxs (r4.length + 1) r4 with
          | some (txs, []) => some ⟨prev, height, hash, total, txs⟩
          | _ => none

/-- Modelled from the spec: `DeserializeBlock`, not under the source files: the inverse of
`Block.Serialize`. On bytes that are not a serialized block it panics. -/
def specDeserializeBlock (d : Bytes) : Outcome (Option Block) :=
  match decodeBlock d with
  | some b => Outcome.ok (some b)
  | none => Outcome.panic

/-- Modelled from the spec: the content hash of a block, not under the source files. The
specification asks for a hash of the block's content; this one is the content itself behind a
marker byte, so two blocks with the same hash have the same content. -/
def contentHash (txs : List Transaction) (prevBlockHash : Bytes) (height : Nat) : Bytes :=
  (2 : Byte) :: (encBytes prevBlockHash ++ (encNat height ++ encTxs txs))

/-- Modelled from the spec: `NewBlock`, not under the source files: "constructs a new Block
with previous-hash = current Tip and height = current Height + 1". -/
def specNewBlock (txs : List Transaction) (prevBlockHash : Bytes) (height : Nat) : Block :=
  ⟨prevBlockHash, height, contentHash txs prevBlockHash height, txs.length, txs⟩

/-- Modelled from the spec: the three writes of `Block.Persist` on the blocks bucket: the block record under its hash,
the tip under "l", the height under "b". An error of a write ends the transaction and leaves
the bucket as it was. -/
def putBlockRecords (bBucket : Bucket) (hash record height : Bytes) : Bucket × Option Error :=
  match bBucket.Put hash record with
  | (_, some e) => (bBucket, some e)
  | (b1, none) =>
    match b1.Put keyL hash with
    | (_, some e) => (bBucket, some e)
    | (b2, none) =>
      match b2.Put keyB height with
      | (_, some e) => (bBucket, some e)
      | (b3, none) => (b3, none)

/-- Modelled from the spec: `Block.Persist`, not under the source files: one write transaction
that "writes the block record keyed by its content hash", sets "the Tip metadata to that
hash" and sets the Height metadata, all or nothing; it returns the hash of the block. -/
def specPersist (b : Block) (db : DB) : (Bytes × Option Error) × DB :=
  if db.opened then
    match putBlockRecords (db.store.blocks.getD Bucket.empty) b.Hash b.Serialize
        (FormatInt (int64 b.Height)) with
    | (_, some e) => ((b.Hash, some e), db)
    | (b3, none) => ((b.Hash, none), { db with store := { db.store with blocks := some b3 } })
  else ((b.Hash, some Error.ErrDatabaseNotOpen), db)

/-- Modelled from the spec: the collaborators that are not under the source files. The genesis
block has "height 0, empty previous-hash"; the index is the list of the blocks handed to it. -/
def specModel : Collaborators where
  NewBlock := specNewBlock
  Persist := specPersist
  DeserializeBlock := specDeserializeBlock
  IndexBlock := fun s b => ⟨s.indexed ++ [b]⟩
  NewSearch := fun _ _ => Except.ok ⟨[]⟩
  NewCoinbaseTX := [99]
  NewGenesisBlock := fun cbtx _ => specNewBlock [cbtx] [] 0
  Serialize := fun a => a.raw

/-! ## The peer layer -/

/-- The type `noise.ID`: the address and the public key of a peer. -/
structure NoiseID where
  Address : String
  ID : Bytes
  deriving DecidableEq, Repr

/-- What `BroadcastObject` does that can be observed from outside. -/
inductive BroadcastEvent (Obj : Type) where
  /-- A call `p.Node.SendMessage(ctx, address, object)`. -/
  | sendMessage (address : String) (object : Obj)
  /-- The line of `log.Errorf` for a failed send. -/
  | logErrorf (address : String) (id : Bytes) (err : Error)
  deriving DecidableEq, Repr

/-- Go `type P2P struct`: the node is its network state `σ`, the overlay is what
`p.overlay.Table().Peers()` returns. -/
structure P2P (σ : Type) where
  Node : σ
  overlay : List NoiseID

/-- The loop of `BroadcastObject` over the snapshot `peers`, with the network in state `net`.
`SendMessage` is the network call: the state afterwards and the error. -/
def broadcastLoop {σ Obj : Type} (SendMessage : σ → String → Obj → σ × Option Error)
    (object : Obj) : List NoiseID → σ → σ × List (BroadcastEvent Obj)
  | [], net => (net, [])
  | id :: rest, net =>
    let r := SendMessage net id.Address object
    let after := broadcastLoop SendMessage object rest r.1
    match r.2 with
    | some err =>
      (after.1, BroadcastEvent.sendMessage id.Address object ::
        BroadcastEvent.logErrorf id.Address id.ID err :: after.2)
    | none => (after.1, BroadcastEvent.sendMessage id.Address object :: after.2)

/-- Go `P2P.BroadcastObject`: the node afterwards and the events in the order they happen. -/
def BroadcastObject {σ Obj : Type} (SendMessage : σ → String → Obj → σ × Option Error)
    (p : P2P σ) (object : Obj) : P2P σ × List (BroadcastEvent Obj) :=
  let r := broadcastLoop SendMessage object p.overlay p.Node
  ({ p with Node := r.1 }, r.2)

/-- The result of each network call when the object is sent to `peers` in order, starting with
the network in state `net`: the peer with the error of its send. -/
def sendResults {σ Obj : Type} (SendMessage : σ → String → Obj → σ × Option Error)
    (object : Obj) : List NoiseID → σ → List (NoiseID × Option Error)
  | [], _ => []
  | id :: rest, net =>
    let r := SendMessage net id.Address object
    (id, r.2) :: sendResults SendMessage object rest r.1

/-- The sends among the events: address and object. -/
def sendsOf {Obj : Type} : List (BroadcastEvent Obj) → List (String × Obj)
  | [] => []
  | BroadcastEvent.sendMessage a o :: es => (a, o) :: sendsOf es
  | BroadcastEvent.logErrorf _ _ _ :: es => sendsOf es

/-- The logged failures among the events: address, identifier and error. -/
def failuresOf {Obj : Type} : List (BroadcastEvent Obj) → List (String × Bytes × Error)
  | [] => []
  | BroadcastEvent.sendMessage _ _ :: es => failuresOf es
  | BroadcastEvent.logErrorf a i e :: es => (a, i, e) :: failuresOf es

/-- What `ctx.DecodeMessage()` can return as the decoded object. -/
inductive Decoded
  /-- A value of type `blockchain.Account`. -/
  | account (a : Account)
  /-- A value of any other type. -/
  | other (typeName : String) (payload : Bytes)
  deriving DecidableEq, Repr

/-- The type `noise.HandlerContext`, as far as `handleAccount` reads it. -/
structure HandlerContext where
  IsRequest : Bool
  DecodeMessage : Except Error Decoded
  ID : NoiseID

/-- What a message handler does besides returning. -/
inductive HandlerEffect
  /-- The line written by `fmt.Printf`: sender address, sender identifier, payload. -/
  | printf (address : String) (id : Bytes) (msg : Account)
  /-- A call of the account persistence, `RegisterAccount(address, account)`. -/
  | registerAccount (address : Bytes) (account : Account)
  deriving DecidableEq, Repr

/-- The effect is a call of the account persistence. -/
def HandlerEffect.isRegisterAccount : HandlerEffect → Bool
  | HandlerEffect.registerAccount _ _ => true
  | HandlerEffect.printf _ _ _ => false

/-- Go `handleAccount`: the returned error and the effects. -/
def handleAccount (ctx : HandlerContext) : Option Error × List HandlerEffect :=
  if ctx.IsRequest then (none, [])
  else
    match ctx.DecodeMessage with
    | Except.error err => (some err, [])
    | Except.ok obj =>
      match obj with
      | Decoded.other _ _ => (some Error.ParseError, [])
      | Decoded.account msg => (none, [HandlerEffect.printf ctx.ID.Address ctx.ID.ID msg])

/-! ## Concrete chains -/

/-- A handle that stands for "no handle". -/
def Blockchain.none : Blockchain := ⟨[], [], ⟨false, Store.empty⟩, "", ⟨[]⟩⟩

/-- The handle inside an outcome, `Blockchain.none` when there is none. -/
def Outcome.handle : Outcome Blockchain → Blockchain
  | Outcome.ok bc => bc
  | _ => Blockchain.none

/-- A file system with no file. -/
def noFiles : FileSystem := fun _ => PathState.absent

/-- The handle that `CreateBlockchain` returns on a fresh path. -/
def createdChain : Blockchain := (CreateBlockchain specModel noFiles "blocace.db" "data").2.handle

/-- The genesis block of `specModel`. -/
def genesis : Block := specNewBlock [[99]] [] 0

/-- The blocks bucket of `createdChain`. -/
def createdBlocks : Bucket := createdChain.Db.store.blocks.getD Bucket.empty

/-- The handle `createdChain` after `Next` has returned the genesis block. -/
def afterGenesis : Blockchain := { createdChain with cursor := [] }

/-! ## Inputs of the examples and predicates of the proofs -/

/-- A file system where the path "host/blocace.db" lies under the regular file "host". -/
def underFile : FileSystem := fun name =>
  if name = "host/blocace.db" then PathState.parentNotDir else PathState.absent

/-- A file system with a database file at "blocace.db". -/
def oneFile : FileSystem := fun name =>
  if name = "blocace.db" then PathState.file (some createdChain.Db.store) else PathState.absent

/-- An account used in the examples. -/
def sampleAccount : Account := ⟨[1, 2, 3]⟩

/-- The accounts bucket of a handle, the empty bucket when it does not exist. -/
def accountsOf (bc : Blockchain) : Bucket := bc.Db.store.accounts.getD Bucket.empty

/-- The blocks bucket of `createdChain` without the height record. -/
def noHeightBlocks : Bucket := ⟨fun k => if k = keyB then none else createdBlocks.entries k⟩

/-- A handle on a database whose blocks bucket has no height record. -/
def noHeightChain : Blockchain :=
  { createdChain with Db := ⟨true, ⟨some noHeightBlocks, none⟩⟩ }

/-- The bytes "41": a height record. -/
def record41 : Bytes := [52, 49]

/-- A handle on a database whose height record is "41". -/
def height41Chain : Blockchain :=
  { createdChain with
    Db := ⟨true, ⟨some ⟨fun k => if k = keyB then some record41 else createdBlocks.entries k⟩,
                  none⟩⟩ }

/-- The bytes "9223372036854775808": the decimal string of `2 ^ 63`. -/
def recordTwoPow63 : Bytes :=
  [57, 50, 50, 51, 51, 55, 50, 48, 51, 54, 56, 53, 52, 55, 55, 53, 56, 48, 56]

/-- A handle on a database whose height record is the decimal string of `2 ^ 63`. -/
def heightTwoPow63Chain : Blockchain :=
  { createdChain with
    Db := ⟨true,
      ⟨some ⟨fun k => if k = keyB then some recordTwoPow63 else createdBlocks.entries k⟩, none⟩⟩ }

/-- A network that fails the second call of `SendMessage` and no other: the state counts the
calls. -/
def secondSendFails (calls : Nat) (_address : String) (_object : Account) : Nat × Option Error :=
  (calls + 1, if calls = 1 then some (Error.send 7) else none)

/-- A node that knows three peers. -/
def threePeers : P2P Nat :=
  ⟨0, [⟨"10.0.0.1:6091", [1]⟩, ⟨"10.0.0.2:6091", [2]⟩, ⟨"10.0.0.3:6091", [3]⟩]⟩

/-- Calls of `AddBlock` made one after another on a handle: each call has its transaction list
and its two clock readings. -/
def AddBlocks (E : Collaborators) :
    Blockchain → List (List Transaction × Int × Int) → Outcome Blockchain
  | bc, [] => Outcome.ok bc
  | bc, call :: rest =>
    match AddBlock E bc call.1 call.2.1 call.2.2 with
    | Outcome.ok r => AddBlocks E r.1 rest
    | Outcome.fatal m => Outcome.fatal m
    | Outcome.panic => Outcome.panic

/-- The blocks bucket still holds the genesis record, holds nothing under the empty key, and
its tip record is a content hash. -/
def holdsGenesis (b : Bucket) : Prop :=
  b.Get genesis.Hash = some genesis.Serialize ∧ b.Get [] = none ∧ ∃ t, b.Get keyL = some (2 :: t)

/-- The handle is open on a bucket that holds the genesis record, and its cursor is the hash
of the genesis block. -/
def cursorAtGenesis (bc : Blockchain) : Prop :=
  bc.Db.opened = true ∧ bc.cursor = genesis.Hash
    ∧ ∃ b, bc.Db.store.blocks = some b ∧ holdsGenesis b

/-! ## Arithmetic of the height -/

theorem ParseInt_ok_range (s : Bytes) (v : Int) (h : ParseInt s = (v, none)) :
    -(2 ^ 63) ≤ v ∧ v < 2 ^ 63 := by
  unfold ParseInt at h
  cases s with
  | nil => simp at h
  | cons c cs =>
    simp only at h
    generalize ParseUint (if c.val = 43 ∨ c.val = 45 then cs else c :: cs) = r at h
    generalize decide (c.val = 45) = neg at h
    split_ifs at h with h2 h3 h4 h5
    · simp only [Prod.mk.injEq] at h
      rw [h.2] at h2
      simp at h2
    · simp at h
    · simp at h
    · simp only [Prod.mk.injEq, and_true] at h
      rw [← h]
      unfold int64
      omega
    · simp only [Prod.mk.injEq, and_true] at h
      rw [← h]
      unfold int64
      omega

theorem uint64_succ (n : Nat) (h : (n : Int) < 2 ^ 63) : uint64 (int64 ((n : Int) + 1)) = n + 1 := by
  unfold uint64 int64
  omega

/-! ## `strconv.ParseInt` on decimal strings -/

theorem digit_val (d : Nat) (hd : d < 10) : ((Fin.ofNat (48 + d) : Byte)).val = 48 + d := by
  simp only [Fin.ofNat]
  omega

theorem parseUintLoop_digit (d n : Nat) (cs : Bytes) (hd : d < 10)
    (hn : n * 10 + d ≤ maxUint64) :
    parseUintLoop ((Fin.ofNat (48 + d) : Byte) :: cs) n = parseUintLoop cs (n * 10 + d) := by
  have hv := digit_val d hd
  unfold maxUint64 at hn
  rw [parseUintLoop]
  simp only [hv, maxUint64]
  have h1 : 48 ≤ 48 + d ∧ 48 + d ≤ 57 := by omega
  have h2 : ¬ n ≥ (2 ^ 64 - 1) / 10 + 1 := by omega
  have h3 : ¬ n * 10 + (48 + d - 48) > 2 ^ 64 - 1 := by omega
  rw [if_pos h1, if_neg h2, if_neg h3]
  congr 1
  omega

theorem parseUintLoop_formatBits (fuel u : Nat) (acc : Bytes) (hlt : u < 10 ^ fuel)
    (hmax : u ≤ maxUint64) :
    parseUintLoop (formatBits fuel u acc) 0 = parseUintLoop acc u := by
  induction fuel generalizing u acc with
  | zero =>
    have : u = 0 := by simpa using hlt
    subst this
    rfl
  | succ fuel ih =>
    unfold formatBits
    by_cases h : u < 10
    · rw [if_pos h, parseUintLoop_digit u 0 acc h (by omega)]
      congr 1
      omega
    · rw [if_neg h]
      have hdiv : u / 10 < 10 ^ fuel := by
        rw [pow_succ] at hlt
        omega
      rw [ih (u / 10) _ hdiv (by omega),
        parseUintLoop_digit (u % 10) (u / 10) acc (by omega) (by omega)]
      congr 1
      omega

theorem formatBits_head (fuel u : Nat) (acc : Bytes) :
    ∃ c rest, formatBits (fuel + 1) u acc = c :: rest ∧ 48 ≤ c.val ∧ c.val ≤ 57 := by
  induction fuel generalizing u acc with
  | zero =>
    unfold formatBits
    by_cases h : u < 10
    · exact ⟨_, _, by rw [if_pos h], by rw [digit_val u h]; omega, by rw [digit_val u h]; omega⟩
    · have hm : u % 10 < 10 := by omega
      refine ⟨_, _, by rw [if_neg h]; rfl, ?_, ?_⟩
      · rw [digit_val _ hm]; omega
      · rw [digit_val _ hm]; omega
  | succ fuel ih =>
    unfold formatBits
    by_cases h : u < 10
    · exact ⟨_, _, by rw [if_pos h], by rw [digit_val u h]; omega, by rw [digit_val u h]; omega⟩
    · rw [if_neg h]
      exact ih _ _

theorem ParseInt_formatBits (fuel n : Nat) (hlt : n < 10 ^ (fuel + 1)) (hn : n < 2 ^ 63) :
    ParseInt (formatBits (fuel + 1) n []) = ((n : Int), none) := by
  obtain ⟨c, rest, hcr, hc1, hc2⟩ := formatBits_head fuel n []
  have hloop := parseUintLoop_formatBits (fuel + 1) n [] hlt (by unfold maxUint64; omega)
  rw [hcr] at hloop ⊢
  have hu : ParseUint (c :: rest) = (n, none) := by
    unfold ParseUint
    rw [if_neg (by simp), hloop]
    rfl
  unfold ParseInt
  have hsign : ¬ (c.val = 43 ∨ c.val = 45) := by omega
  have hneg : decide (c.val = 45) = false := by
    simp only [decide_eq_false_iff_not]
    omega
  simp only [if_neg hsign, hu, hneg]
  have h1 : ¬ ((none : Option Error) = some Error.ErrSyntax) := by simp
  have h2 : ¬ (¬ (false = true) ∧ n ≥ 2 ^ 63) := by omega
  have h3 : ¬ ((false = true) ∧ n > 2 ^ 63) := by simp
  rw [if_neg h1, if_neg h2, if_neg h3]
  have h4 : int64 (n : Int) = n := by
    unfold int64
    omega
  simp [h4]

theorem formatBits_eq_digits (fuel u : Nat) (acc : Bytes) (hpos : 0 < u) (hlt : u < 10 ^ fuel) :
    formatBits fuel u acc
      = (Nat.digits 10 u).reverse.map (fun d => (Fin.ofNat (48 + d) : Byte)) ++ acc := by
  induction fuel generalizing u acc with
  | zero =>
    have : u = 0 := by simpa using hlt
    omega
  | succ fuel ih =>
    unfold formatBits
    by_cases h : u < 10
    · rw [if_pos h, Nat.digits_of_lt 10 u (by omega) h]
      rfl
    · rw [if_neg h]
      have hdiv : u / 10 < 10 ^ fuel := by
        rw [pow_succ] at hlt
        omega
      rw [ih (u / 10) _ (by omega) hdiv, Nat.digits_def' (by omega : 1 < 10) hpos]
      simp

theorem decimal_eq_formatBits (fuel n : Nat) (hlt : n < 10 ^ (fuel + 1)) :
    decimal n = formatBits (fuel + 1) n [] := by
  unfold decimal
  by_cases h : n = 0
  · subst h
    rfl
  · rw [if_neg h, formatBits_eq_digits (fuel + 1) n [] (by omega) hlt, List.append_nil]

/-- `strconv.ParseInt` reads the decimal string of a number below `2 ^ 63` as that number. -/
theorem ParseInt_decimal (n : Nat) (hn : n < 2 ^ 63) : ParseInt (decimal n) = ((n : Int), none) := by
  have hlt : n < 10 ^ (19 + 1) := by
    have : (2 : Nat) ^ 63 < 10 ^ (19 + 1) := by norm_num
    omega
  rw [decimal_eq_formatBits 19 n hlt]
  exact ParseInt_formatBits 19 n hlt hn

theorem FormatInt_eq_decimal (n : Nat) (hn : n < 2 ^ 63) : FormatInt (n : Int) = decimal n := by
  have hlt : n < 10 ^ (19 + 1) := by
    have : (2 : Nat) ^ 63 < 10 ^ (19 + 1) := by norm_num
    omega
  rw [decimal_eq_formatBits 19 n hlt]
  unfold FormatInt
  have h0 : ¬ ((n : Int) < 0) := by omega
  rw [if_neg h0]
  have hu : uint64 (n : Int) = n := by
    unfold uint64
    omega
  rw [hu]

theorem record41_eq : record41 = decimal 41 := by
  rw [decimal_eq_formatBits 19 41 (by norm_num)]
  decide

theorem recordTwoPow63_eq : recordTwoPow63 = decimal (2 ^ 63) := by
  rw [decimal_eq_formatBits 19 (2 ^ 63) (by norm_num)]
  decide

/-! ## The modelled serialization round-trips -/

theorem decNat_encNat (n : Nat) (rest : Bytes) : decNat (encNat n ++ rest) = some (n, rest) := by
  induction n with
  | zero => simp [encNat, decNat]
  | succ n ih => simp [encNat, decNat, ih]

theorem length_encBytes (bs : Bytes) : (encBytes bs).length = 2 * bs.length + 1 := by
  induction bs with
  | nil => simp [encBytes]
  | cons b bs ih => simp [encBytes, ih]; omega

theorem decBytes_encBytes (bs : Bytes) (rest : Bytes) (fuel : Nat) (h : bs.length < fuel) :
    decBytes fuel (encBytes bs ++ rest) = some (bs, rest) := by
  induction bs generalizing fuel with
  | nil =>
    cases fuel with
    | zero => omega
    | succ f => simp [encBytes, decBytes]
  | cons b bs ih =>
    cases fuel with
    | zero => omega
    | succ f =>
      have hf : bs.length < f := by
        simp only [List.length_cons] at h
        omega
      simp [encBytes, decBytes, ih f hf]

theorem decTxs_encTxs (ts : List Transaction) (rest : Bytes) (fuel : Nat)
    (h : ts.length < fuel) : decTxs fuel (encTxs ts ++ rest) = some (ts, rest) := by
  induction ts generalizing fuel with
  | nil =>
    cases fuel with
    | zero => omega
    | succ f => simp [encTxs, decTxs]
  | cons t ts ih =>
    cases fuel with
    | zero => omega
    | succ f =>
      have hf : ts.length < f := by
        simp only [List.length_cons] at h
        omega
      have hlen : t.length < (encBytes t ++ (encTxs ts ++ rest)).length + 1 := by
        rw [List.length_append, length_encBytes]
        omega
      have hd := decBytes_encBytes t (encTxs ts ++ rest) _ hlen
      simp only [encTxs, List.cons_append, decTxs]
      rw [if_neg (by decide), if_pos (by decide)]
      simp only [List.append_eq, List.append_assoc]
      rw [hd]
      simp only [ih f hf, Option.map_some']

/-- The round-trip property the specification asks of the serialization: deserializing a
serialized block gives the block back. -/
theorem decodeBlock_Serialize (b : Block) : decodeBlock b.Serialize = some b := by
  unfold decodeBlock Block.Serialize
  have h1 : b.PrevBlockHash.length < (encBytes b.PrevBlockHash ++ (encNat b.Height ++
      (encBytes b.Hash ++ (encNat b.TotalTransactions ++ encTxs b.Transactions)))).length + 1 := by
    rw [List.length_append, length_encBytes]
    omega
  rw [decBytes_encBytes _ _ _ h1]
  simp only [decNat_encNat]
  have h2 : b.Hash.length < (encBytes b.Hash ++ (encNat b.TotalTransactions ++
      encTxs b.Transactions)).length + 1 := by
    rw [List.length_append, length_encBytes]
    omega
  rw [decBytes_encBytes _ _ _ h2]
  simp only [decNat_encNat]
  have h3 : b.Transactions.length < (encTxs b.Transactions).length + 1 := by
    have : ∀ ts : List Transaction, ts.length ≤ (encTxs ts).length := by
      intro ts
      induction ts with
      | nil => simp
      | cons t ts ih => simp [encTxs]; omega
    have := this b.Transactions
    omega
  have h4 := decTxs_encTxs b.Transactions [] _ h3
  rw [List.append_nil] at h4
  rw [h4]

/-! ## `AddBlock`: the block that is built -/

/-- C2, counterexample: the height record is "9223372036854775808", the decimal string of
`2 ^ 63`. `ParseInt` answers with a range error and the value `2 ^ 63 - 1`, the increment wraps,
and the block that `AddBlock` builds and indexes has height `2 ^ 63`, not the stored height
plus one. -/
theorem AddBlock_height_record_beyond_int64 :
    heightTwoPow63Chain.Db.store.blocks.bind (fun b => b.Get keyB) = some (decimal (2 ^ 63))
    ∧ ParseInt (decimal (2 ^ 63)) = (2 ^ 63 - 1, some Error.ErrRange)
    ∧ ∃ bc1 lg newBlock,
        AddBlock specModel heightTwoPow63Chain [] 0 0 = Outcome.ok (bc1, lg)
        ∧ bc1.Search.indexed = [newBlock]
        ∧ newBlock.PrevBlockHash = genesis.Hash
        ∧ newBlock.Height = 2 ^ 63
        ∧ newBlock.Height ≠ 2 ^ 63 + 1 := by
  refine ⟨?_, ?_, ?_⟩
  · rw [← recordTwoPow63_eq]
    rfl
  · rw [← recordTwoPow63_eq]
    decide
  · refine ⟨_, _, _, rfl, rfl, rfl, ?_, ?_⟩
    · decide
    · decide

/-- C2, amended: for every transaction list, the empty one included, `AddBlock` builds the new
block with previous-hash equal to the tip stored under the key "l" of the blocks bucket, and,
whenever the record under the key "b" is the decimal string of a height `n` of at most
`2 ^ 63 - 1` (the largest value `strconv.ParseInt` reads as an `int64`), with height `n + 1`:
the block is `NewBlock(txs, tip, n + 1)`, and `NewBlock` keeps its arguments. That block is the
one persisted and indexed. -/
theorem AddBlock_builds_on_stored_tip_and_height (E : Collaborators) (bc : Blockchain)
    (txs : List Transaction) (start stop : Int) (bBucket : Bucket)
    (hopen : bc.Db.opened = true) (hb : bc.Db.store.blocks = some bBucket)
    (hnew : ∀ t p h, (E.NewBlock t p h).PrevBlockHash = p ∧ (E.NewBlock t p h).Height = h) :
    ∃ newBlock lg,
      AddBlock E bc txs start stop =
        Outcome.ok ({ bc with Tip := (E.Persist newBlock bc.Db).1.1,
                              Db := (E.Persist newBlock bc.Db).2,
                              Search := E.IndexBlock bc.Search newBlock }, lg)
      ∧ newBlock.PrevBlockHash = (bBucket.Get keyL).getD []
      ∧ ∀ n : Nat, bBucket.Get keyB = some (decimal n) → n < 2 ^ 63 →
          newBlock = E.NewBlock txs ((bBucket.Get keyL).getD []) (n + 1)
          ∧ newBlock.Height = n + 1 := by
  unfold AddBlock readTipAndHeight
  simp only [hopen, hb, ↓reduceIte]
  refine ⟨_, _, rfl, ?_, ?_⟩
  · unfold blockToAdd
    exact (hnew _ _ _).1
  · intro n hrec hn
    have hparse := ParseInt_decimal n hn
    have hblock : blockToAdd E txs (bBucket.Get keyL) (bBucket.Get keyB)
        = E.NewBlock txs ((bBucket.Get keyL).getD []) (n + 1) := by
      unfold blockToAdd
      rw [hrec, Option.getD_some, hparse]
      simp only
      rw [uint64_succ n (by exact_mod_cast hn)]
    rw [hblock]
    exact ⟨rfl, (hnew _ _ _).2⟩

/-- Witness of C2, amended: the empty transaction list appended to a chain whose height record
is "41" gives a block of height 42 whose previous-hash is the stored tip, the hash of the
genesis block. -/
theorem AddBlock_builds_on_stored_tip_and_height_witness :
    ∃ newBlock lg,
      AddBlock specModel height41Chain [] 0 0 =
        Outcome.ok ({ height41Chain with
                        Tip := (specModel.Persist newBlock height41Chain.Db).1.1,
                        Db := (specModel.Persist newBlock height41Chain.Db).2,
                        Search := specModel.IndexBlock height41Chain.Search newBlock }, lg)
      ∧ newBlock.PrevBlockHash = genesis.Hash
      ∧ newBlock.Height = 42 := by
  obtain ⟨newBlock, lg, hadd, hprev, hheight⟩ :=
    AddBlock_builds_on_stored_tip_and_height specModel height41Chain [] 0 0 _ rfl rfl
      (fun _ _ _ => ⟨rfl, rfl⟩)
  refine ⟨newBlock, lg, hadd, hprev, ?_⟩
  have hrec : Bucket.Get
      ⟨fun k => if k = keyB then some record41 else createdBlocks.entries k⟩ keyB
        = some (decimal 41) := by
    rw [← record41_eq]
    rfl
  exact (hheight 41 hrec (by norm_num)).2

/-! ## `Next` -/

/-- C3: when the cursor of a handle is the key of a record of the blocks bucket that
deserializes to a block, `Next` returns that block, the cursor is then the block's
previous-hash, and the tip and the store are as before. -/
theorem Next_returns_block_at_cursor (E : Collaborators) (bc : Blockchain) (bBucket : Bucket)
    (record : Bytes) (blk : Block)
    (hopen : bc.Db.opened = true) (hb : bc.Db.store.blocks = some bBucket)
    (hrec : bBucket.Get bc.cursor = some record)
    (hdes : E.DeserializeBlock record = Outcome.ok (some blk)) :
    ∃ bc1 lg, Next E bc = Outcome.ok (some blk, bc1, lg)
      ∧ bc1.cursor = blk.PrevBlockHash ∧ bc1.Tip = bc.Tip ∧ bc1.Db = bc.Db := by
  refine ⟨{ bc with cursor := blk.PrevBlockHash }, [], ?_, rfl, rfl, rfl⟩
  unfold Next readAtCursor
  simp only [hopen, hb, hrec, Option.getD_some, hdes, ↓reduceIte]

/-- Witness of C3: on the chain just created the cursor is the hash of the genesis block, and
`Next` returns the genesis block. -/
theorem Next_returns_block_at_cursor_witness :
    ∃ bc1 lg, Next specModel createdChain = Outcome.ok (some genesis, bc1, lg)
      ∧ bc1.cursor = genesis.PrevBlockHash ∧ bc1.Tip = createdChain.Tip
      ∧ bc1.Db = createdChain.Db :=
  Next_returns_block_at_cursor specModel createdChain createdBlocks genesis.Serialize genesis
    rfl rfl (by decide) (by decide)

/-- `Next` never completes with a nil block: the pointer is dereferenced before the return. -/
theorem Next_never_nil (E : Collaborators) (bc bc1 : Blockchain) (lg : List LogEntry) :
    Next E bc ≠ Outcome.ok (none, bc1, lg) := by
  unfold Next
  intro h
  cases hr : readAtCursor E bc with
  | panic => simp [hr] at h
  | fatal m => simp [hr] at h
  | ok r =>
    obtain ⟨block, err⟩ := r
    cases block with
    | none => simp [hr] at h
    | some blk => simp [hr] at h

/-- C4, counterexample: on the chain just created, once `Next` has returned the genesis block
the cursor is empty, and the next call of `Next` panics: it is not a "no block" result. Whatever
`DeserializeBlock` does with the nil slice, the call does not complete with a nil block. -/
theorem Next_past_genesis_panics :
    afterGenesis.cursor = [] ∧ Next specModel afterGenesis = Outcome.panic
      ∧ ∀ (E : Collaborators) (bc1 : Blockchain) (lg : List LogEntry),
          Next E afterGenesis ≠ Outcome.ok (none, bc1, lg) :=
  ⟨rfl, rfl, fun E bc1 lg => Next_never_nil E afterGenesis bc1 lg⟩

/-- C4, amended: with the empty cursor `Next` makes no test: it looks the empty key up in the
blocks bucket, and as no record is stored under the empty key it hands the nil slice to
`DeserializeBlock` and dereferences what comes back. The call panics when `DeserializeBlock`
panics or returns nil, and otherwise returns the block made from the nil slice; in no case
does it complete with a nil block. -/
theorem Next_with_empty_cursor (E : Collaborators) (bc : Blockchain) (bBucket : Bucket)
    (hopen : bc.Db.opened = true) (hb : bc.Db.store.blocks = some bBucket)
    (hcur : bc.cursor = []) (hkey : bBucket.Get [] = none) :
    (Next E bc =
      match E.DeserializeBlock [] with
      | Outcome.ok (some blk) => Outcome.ok (some blk, { bc with cursor := blk.PrevBlockHash }, [])
      | Outcome.ok none => Outcome.panic
      | Outcome.fatal m => Outcome.fatal m
      | Outcome.panic => Outcome.panic)
    ∧ ∀ bc1 lg, Next E bc ≠ Outcome.ok (none, bc1, lg) := by
  refine ⟨?_, fun bc1 lg => Next_never_nil E bc bc1 lg⟩
  unfold Next readAtCursor
  simp only [hopen, hb, hcur, hkey, Option.getD_none, ↓reduceIte]
  cases hd : E.DeserializeBlock [] with
  | ok block => cases block <;> simp
  | fatal m => simp
  | panic => simp

/-- Witness of C4, amended: the chain just created, after the genesis block was returned. -/
theorem Next_with_empty_cursor_witness :
    (Next specModel afterGenesis =
      match specModel.DeserializeBlock [] with
      | Outcome.ok (some blk) =>
        Outcome.ok (some blk, { afterGenesis with cursor := blk.PrevBlockHash }, [])
      | Outcome.ok none => Outcome.panic
      | Outcome.fatal m => Outcome.fatal m
      | Outcome.panic => Outcome.panic)
    ∧ ∀ bc1 lg, Next specModel afterGenesis ≠ Outcome.ok (none, bc1, lg) :=
  Next_with_empty_cursor specModel afterGenesis createdBlocks rfl rfl rfl (by decide)

/-! ## Start-up -/

theorem DbExists_eq_false_iff (fs : FileSystem) (dbFile : String) :
    DbExists fs dbFile = false ↔ osStat fs dbFile = some Errno.ENOENT := by
  unfold DbExists osIsNotExist
  cases h : osStat fs dbFile with
  | none => simp
  | some e => cases e <;> simp

theorem NewBlockchain_not_found (E : Collaborators) (fs : FileSystem) (dbFile dataDir : String)
    (h : DbExists fs dbFile = false) :
    NewBlockchain E fs dbFile dataDir = (fs, Outcome.fatal NotFound) := by
  unfold NewBlockchain
  simp [h]

theorem NewBlockchain_found (E : Collaborators) (fs : FileSystem) (dbFile dataDir : String)
    (h : DbExists fs dbFile = true) :
    (NewBlockchain E fs dbFile dataDir).2 = Outcome.panic
      ∨ ∃ bc, (NewBlockchain E fs dbFile dataDir).2 = Outcome.ok bc := by
  unfold NewBlockchain
  simp only [h, Bool.true_eq_false, ↓reduceIte]
  split
  · exact Or.inl rfl
  · split
    · exact Or.inl rfl
    · split
      · exact Or.inl rfl
      · exact Or.inr ⟨_, rfl⟩

theorem CreateBlockchain_exists (E : Collaborators) (fs : FileSystem) (dbFile dataDir : String)
    (h : DbExists fs dbFile = true) :
    CreateBlockchain E fs dbFile dataDir = (fs, Outcome.fatal AlreadyExists) := by
  unfold CreateBlockchain
  simp [h]

theorem CreateBlockchain_fresh (E : Collaborators) (fs : FileSystem) (dbFile dataDir : String)
    (h : DbExists fs dbFile = false) :
    (CreateBlockchain E fs dbFile dataDir).2 = Outcome.panic
      ∨ ∃ bc, (CreateBlockchain E fs dbFile dataDir).2 = Outcome.ok bc := by
  unfold CreateBlockchain
  simp only [h, Bool.false_eq_true, ↓reduceIte]
  split
  · exact Or.inl rfl
  · split
    · exact Or.inl rfl
    · split
      · exact Or.inl rfl
      · exact Or.inr ⟨_, rfl⟩

/-- C5, counterexample: at a path that lies under a regular file no store file exists, yet
`CreateBlockchain` fails with `AlreadyExists` and `NewBlockchain` does not fail with
`NotFound` (it panics when bolt cannot open the path). -/
theorem startup_under_a_file :
    (underFile "host/blocace.db").present = false
      ∧ CreateBlockchain specModel underFile "host/blocace.db" "data"
          = (underFile, Outcome.fatal AlreadyExists)
      ∧ (NewBlockchain specModel underFile "host/blocace.db" "data").2 = Outcome.panic
      ∧ (NewBlockchain specModel underFile "host/blocace.db" "data").2 ≠ Outcome.fatal NotFound := by
  have h : underFile "host/blocace.db" = PathState.parentNotDir := by
    simp [underFile]
  have hd : DbExists underFile "host/blocace.db" = true := by
    simp [DbExists, osStat, osIsNotExist, h]
  have hn : (NewBlockchain specModel underFile "host/blocace.db" "data").2 = Outcome.panic := by
    simp [NewBlockchain, hd, boltOpen, h]
  refine ⟨by rw [h]; rfl, CreateBlockchain_exists _ _ _ _ hd, hn, ?_⟩
  rw [hn]
  simp

/-- C5, amended: `NewBlockchain` fails with `NotFound` exactly when `os.Stat` reports that the
path does not exist, and `CreateBlockchain` fails with `AlreadyExists` exactly when `os.Stat`
does not report that (it succeeds, or it fails for another reason); in both failing cases the
file system is as before, bolt is not called, and no handle is returned. When `os.Stat` succeeds
or reports that the path does not exist, this is: exactly when no file exists at the path, and
exactly when one does. -/
theorem startup_failures (E : Collaborators) (fs : FileSystem) (dbFile dataDir : String) :
    ((NewBlockchain E fs dbFile dataDir).2 = Outcome.fatal NotFound
        ↔ osStat fs dbFile = some Errno.ENOENT)
    ∧ ((CreateBlockchain E fs dbFile dataDir).2 = Outcome.fatal AlreadyExists
        ↔ osStat fs dbFile ≠ some Errno.ENOENT)
    ∧ (osStat fs dbFile = some Errno.ENOENT →
        NewBlockchain E fs dbFile dataDir = (fs, Outcome.fatal NotFound))
    ∧ (osStat fs dbFile ≠ some Errno.ENOENT →
        CreateBlockchain E fs dbFile dataDir = (fs, Outcome.fatal AlreadyExists))
    ∧ ((osStat fs dbFile = none ∨ osStat fs dbFile = some Errno.ENOENT) →
        (osStat fs dbFile = some Errno.ENOENT ↔ (fs dbFile).present = false)) := by
  have hiff := DbExists_eq_false_iff fs dbFile
  have hnew : osStat fs dbFile = some Errno.ENOENT →
      NewBlockchain E fs dbFile dataDir = (fs, Outcome.fatal NotFound) :=
    fun h => NewBlockchain_not_found E fs dbFile dataDir (hiff.2 h)
  have hcreate : osStat fs dbFile ≠ some Errno.ENOENT →
      CreateBlockchain E fs dbFile dataDir = (fs, Outcome.fatal AlreadyExists) := by
    intro h
    apply CreateBlockchain_exists
    cases hd : DbExists fs dbFile with
    | true => rfl
    | false => exact absurd (hiff.1 hd) h
  refine ⟨⟨?_, fun h => by rw [hnew h]⟩, ⟨?_, fun h => by rw [hcreate h]⟩, hnew, hcreate, ?_⟩
  · intro h
    cases hd : DbExists fs dbFile with
    | false => exact hiff.1 hd
    | true =>
      rcases NewBlockchain_found E fs dbFile dataDir hd with h1 | ⟨bc, h1⟩
      · rw [h1] at h; simp at h
      · rw [h1] at h; simp at h
  · intro h hstat
    rcases CreateBlockchain_fresh E fs dbFile dataDir (hiff.2 hstat) with h1 | ⟨bc, h1⟩
    · rw [h1] at h; simp at h
    · rw [h1] at h; simp at h
  · unfold osStat PathState.present
    cases fs dbFile <;> simp

/-- Witness of C5, amended: on a fresh path `NewBlockchain` fails with `NotFound` and leaves the
file system alone; on a path with a database file `CreateBlockchain` fails with
`AlreadyExists` and leaves the file system alone. -/
theorem startup_failures_witness :
    NewBlockchain specModel noFiles "blocace.db" "data" = (noFiles, Outcome.fatal NotFound)
    ∧ CreateBlockchain specModel oneFile "blocace.db" "data"
        = (oneFile, Outcome.fatal AlreadyExists) :=
  ⟨(startup_failures specModel noFiles "blocace.db" "data").2.2.1 rfl,
   (startup_failures specModel oneFile "blocace.db" "data").2.2.2.1 (by
      have h : oneFile "blocace.db" = PathState.file (some createdChain.Db.store) := by
        simp [oneFile]
      simp [osStat, h])⟩

/-! ## `RegisterAccount` -/

theorem Put_twice (b : Bucket) (key value : Bytes) :
    ((b.Put key value).1.Put key value).1 = (b.Put key value).1 := by
  unfold Bucket.Put
  by_cases h1 : key.length = 0
  · simp [h1]
  · by_cases h2 : key.length > MaxKeySize
    · simp [h1, h2]
    · by_cases h3 : value.length > MaxValueSize
      · simp [h1, h2, h3]
      · simp only [h1, h2, h3, ↓reduceIte, Bucket.mk.injEq]
        funext k
        by_cases hk : k = key <;> simp [hk]

/-- C10, counterexample: with the empty address `RegisterAccount` returns no error, and the
accounts bucket holds nothing under that address: bolt refuses the empty key, the error of
`Put` is logged, and the closure returns nil. -/
theorem RegisterAccount_empty_address :
    (RegisterAccount specModel createdChain [] sampleAccount).1 = none
    ∧ (accountsOf (RegisterAccount specModel createdChain [] sampleAccount).2.1).Get []
        ≠ some (specModel.Serialize sampleAccount)
    ∧ (RegisterAccount specModel createdChain [] sampleAccount).2.2
        = [LogEntry.error Error.ErrKeyRequired] := by
  refine ⟨rfl, ?_, rfl⟩
  decide

/-- C10, amended: when the address is one bolt accepts as a key (not empty, at most
`MaxKeySize` bytes) and the serialization is at most `MaxValueSize` bytes, then whenever
`RegisterAccount` returns no error the accounts bucket maps the address to the serialization
of the account and maps every other address as before; and for every address and account, a
second call with the same arguments leaves the store as the first call left it. -/
theorem RegisterAccount_upsert (E : Collaborators) (bc : Blockchain) (address : Bytes)
    (account : Account) :
    (address.length ≠ 0 → address.length ≤ MaxKeySize →
      (E.Serialize account).length ≤ MaxValueSize →
      (RegisterAccount E bc address account).1 = none →
        (RegisterAccount E bc address account).2.1.Db.store.accounts
            = some (accountsOf (RegisterAccount E bc address account).2.1)
        ∧ (accountsOf (RegisterAccount E bc address account).2.1).Get address
            = some (E.Serialize account)
        ∧ ∀ other, other ≠ address →
            (accountsOf (RegisterAccount E bc address account).2.1).Get other
              = (accountsOf bc).Get other)
    ∧ (RegisterAccount E (RegisterAccount E bc address account).2.1 address account).2.1.Db.store
        = (RegisterAccount E bc address account).2.1.Db.store := by
  constructor
  · intro h1 h2 h3 hret
    unfold RegisterAccount at hret ⊢
    cases hopen : bc.Db.opened with
    | false => simp [hopen] at hret
    | true =>
      have h2' : ¬ address.length > MaxKeySize := by omega
      have h3' : ¬ (E.Serialize account).length > MaxValueSize := by omega
      simp only [↓reduceIte, accountsOf, Bucket.Put, h1, h2', h3', Option.getD_some, Bucket.Get,
        true_and]
      intro other hne
      simp [hne]
  · unfold RegisterAccount
    cases hopen : bc.Db.opened with
    | false => simp [hopen]
    | true =>
      simp only [↓reduceIte, hopen, Option.getD_some, Put_twice]

/-- Witness of C10, amended: a one-byte address on the chain just created. -/
theorem RegisterAccount_upsert_witness :
    (accountsOf (RegisterAccount specModel createdChain [7] sampleAccount).2.1).Get [7]
      = some (specModel.Serialize sampleAccount) :=
  ((RegisterAccount_upsert specModel createdChain [7] sampleAccount).1 (by decide) (by decide)
    (by decide) rfl).2.1

/-! ## `handleAccount` -/

/-- C7: for a message that is not a request and whose payload decodes to a value that is not an
account, `handleAccount` returns the error `&net.ParseError{}` and has no effect: the account
persistence is not called. -/
theorem handleAccount_wrong_type (id : NoiseID) (typeName : String) (payload : Bytes) :
    (handleAccount ⟨false, Except.ok (Decoded.other typeName payload), id⟩).1
        = some Error.ParseError
    ∧ (handleAccount ⟨false, Except.ok (Decoded.other typeName payload), id⟩).2 = []
    ∧ ∀ ctx : HandlerContext, ∀ eff ∈ (handleAccount ctx).2, eff.isRegisterAccount = false := by
  refine ⟨rfl, rfl, ?_⟩
  intro ctx eff heff
  unfold handleAccount at heff
  split at heff
  · simp at heff
  · split at heff
    · simp at heff
    · split at heff
      · simp at heff
      · simp only [List.mem_singleton] at heff
        rw [heff]
        rfl

/-- C8, the code at the failing input: for a message that is not a request and whose payload
decodes to an account, `handleAccount` returns no error, and its only effect is the line
written by `fmt.Printf`: the account is not handed to `RegisterAccount`. -/
theorem handleAccount_account_not_persisted (id : NoiseID) (msg : Account) :
    handleAccount ⟨false, Except.ok (Decoded.account msg), id⟩
        = (none, [HandlerEffect.printf id.Address id.ID msg])
    ∧ ∀ address account, HandlerEffect.registerAccount address account
        ∉ (handleAccount ⟨false, Except.ok (Decoded.account msg), id⟩).2 := by
  refine ⟨rfl, ?_⟩
  intro address account h
  simp [handleAccount] at h

/-! ## `AddBlock`: what is logged -/

/-- The error lines in the log of `AddBlock` are errors of `Persist`: the error of `View` and
the error of `ParseInt` are overwritten before the test at the end. -/
theorem AddBlock_logs_only_Persist (E : Collaborators) (bc bc1 : Blockchain)
    (txs : List Transaction) (start stop : Int) (lg : List LogEntry) (e : Error)
    (h : AddBlock E bc txs start stop = Outcome.ok (bc1, lg)) (he : LogEntry.error e ∈ lg) :
    ∃ blk, (E.Persist blk bc.Db).1.2 = some e := by
  unfold AddBlock at h
  split at h
  · simp at h
  · simp at h
  · rename_i lastHash lastHeight verr hread
    simp only [Outcome.ok.injEq, Prod.mk.injEq] at h
    refine ⟨blockToAdd E txs lastHash lastHeight, ?_⟩
    rw [← h.2] at he
    cases hp : (E.Persist (blockToAdd E txs lastHash lastHeight) bc.Db).1.2 with
    | none => simp [hp] at he
    | some e1 =>
      simp [hp] at he
      rw [he]

/-- When the read transaction does not panic (the database is closed, or the blocks bucket
exists), `AddBlock` completes, whatever `View` and `ParseInt` returned. -/
theorem AddBlock_completes (E : Collaborators) (bc : Blockchain) (txs : List Transaction)
    (start stop : Int) (h : bc.Db.opened = false ∨ bc.Db.store.blocks ≠ none) :
    ∃ r, AddBlock E bc txs start stop = Outcome.ok r := by
  unfold AddBlock readTipAndHeight
  rcases h with h | h
  · simp only [h, Bool.false_eq_true, ↓reduceIte]
    exact ⟨_, rfl⟩
  · cases hopen : bc.Db.opened with
    | false =>
      simp only [Bool.false_eq_true, ↓reduceIte]
      exact ⟨_, rfl⟩
    | true =>
      cases hb : bc.Db.store.blocks with
      | none => exact absurd hb h
      | some b =>
        simp only [↓reduceIte]
        exact ⟨_, rfl⟩

/-- On a closed database `View` fails and `ParseInt` fails on the empty string; neither error
reaches the log. `AddBlock` completes with a block of height 1 on the empty tip, and the one
error line is the error that `Persist` returned. -/
theorem AddBlock_on_closed_database :
    ∃ bc1, AddBlock specModel { createdChain with Db := ⟨false, createdChain.Db.store⟩ } [] 10 20
      = Outcome.ok (bc1, [LogEntry.debugTransactions 0, LogEntry.debugStart 10,
                          LogEntry.debugEnd 20 0, LogEntry.error Error.ErrDatabaseNotOpen])
      ∧ bc1.Tip = (specNewBlock [] [] 1).Hash :=
  ⟨_, rfl, rfl⟩

/-- C9, the code at the failing input: the blocks bucket has no height record, so `ParseInt`
returns a syntax error; `AddBlock` completes, builds a block of height 1, and its log holds the
three debug lines and no error line. -/
theorem AddBlock_parse_error_not_logged :
    ParseInt ((noHeightBlocks.Get keyB).getD []) = (0, some Error.ErrSyntax)
    ∧ ∃ bc1, AddBlock specModel noHeightChain [] 10 20
          = Outcome.ok (bc1, [LogEntry.debugTransactions 0, LogEntry.debugStart 10,
                              LogEntry.debugEnd 20 0])
        ∧ bc1.Tip = (specNewBlock [] genesis.Hash 1).Hash :=
  ⟨by decide, _, rfl, rfl⟩

/-! ## `BroadcastObject` -/

theorem broadcastLoop_sends {σ Obj : Type} (SendMessage : σ → String → Obj → σ × Option Error)
    (object : Obj) (peers : List NoiseID) (net : σ) :
    sendsOf (broadcastLoop SendMessage object peers net).2
      = peers.map (fun id => (id.Address, object)) := by
  induction peers generalizing net with
  | nil => rfl
  | cons id rest ih =>
    unfold broadcastLoop
    cases h : (SendMessage net id.Address object).2 with
    | none => simp [h, sendsOf, ih]
    | some err => simp [h, sendsOf, ih]

theorem broadcastLoop_failures {σ Obj : Type}
    (SendMessage : σ → String → Obj → σ × Option Error) (object : Obj) (peers : List NoiseID)
    (net : σ) :
    failuresOf (broadcastLoop SendMessage object peers net).2
      = (sendResults SendMessage object peers net).filterMap
          (fun r => r.2.map (fun e => (r.1.Address, r.1.ID, e))) := by
  induction peers generalizing net with
  | nil => rfl
  | cons id rest ih =>
    unfold broadcastLoop sendResults
    cases h : (SendMessage net id.Address object).2 with
    | none => simp [h, failuresOf, ih]
    | some err => simp [h, failuresOf, ih]

theorem sendResults_peers {σ Obj : Type} (SendMessage : σ → String → Obj → σ × Option Error)
    (object : Obj) (peers : List NoiseID) (net : σ) :
    (sendResults SendMessage object peers net).map (fun r => r.1) = peers := by
  induction peers generalizing net with
  | nil => rfl
  | cons id rest ih => simp [sendResults, ih]

theorem length_filterMap_failed (rs : List (NoiseID × Option Error)) :
    (rs.filterMap (fun r => r.2.map (fun e => (r.1.Address, r.1.ID, e)))).length
      = (rs.filter (fun r => r.2.isSome)).length := by
  induction rs with
  | nil => rfl
  | cons r rest ih =>
    obtain ⟨id, e⟩ := r
    cases e with
    | none => simpa [List.filterMap_cons, List.filter_cons] using ih
    | some err => simpa [List.filterMap_cons, List.filter_cons] using ih

theorem length_failed_add_delivered (rs : List (NoiseID × Option Error)) :
    (rs.filter (fun r => r.2.isSome)).length + (rs.filter (fun r => r.2.isNone)).length
      = rs.length := by
  induction rs with
  | nil => rfl
  | cons r rest ih =>
    obtain ⟨id, e⟩ := r
    cases e with
    | none => simp [List.filter_cons]; omega
    | some err => simp [List.filter_cons]; omega

/-- C6: for every snapshot of `N` peers and every behaviour of the network, `BroadcastObject`
calls `SendMessage` once for each peer of the snapshot, in snapshot order and with the object,
whatever the earlier calls returned; the logged failures are the failed sends, one line per
failing peer with its address, identifier and error, so with `M` failed sends there are `M`
lines; the sends that did not fail are `N - M`; and when the addresses of the snapshot are
distinct no address is sent to twice. -/
theorem BroadcastObject_sends_each_peer_once {σ Obj : Type}
    (SendMessage : σ → String → Obj → σ × Option Error) (p : P2P σ) (object : Obj) :
    sendsOf (BroadcastObject SendMessage p object).2
        = p.overlay.map (fun id => (id.Address, object))
    ∧ (sendsOf (BroadcastObject SendMessage p object).2).length = p.overlay.length
    ∧ (sendResults SendMessage object p.overlay p.Node).map (fun r => r.1) = p.overlay
    ∧ failuresOf (BroadcastObject SendMessage p object).2
        = (sendResults SendMessage object p.overlay p.Node).filterMap
            (fun r => r.2.map (fun e => (r.1.Address, r.1.ID, e)))
    ∧ (failuresOf (BroadcastObject SendMessage p object).2).length
        = ((sendResults SendMessage object p.overlay p.Node).filter (fun r => r.2.isSome)).length
    ∧ ((sendResults SendMessage object p.overlay p.Node).filter (fun r => r.2.isNone)).length
        = p.overlay.length
          - ((sendResults SendMessage object p.overlay p.Node).filter
              (fun r => r.2.isSome)).length
    ∧ ((p.overlay.map (fun id => id.Address)).Nodup →
        ((sendsOf (BroadcastObject SendMessage p object).2).map (fun s => s.1)).Nodup) := by
  have hs := broadcastLoop_sends SendMessage object p.overlay p.Node
  have hf := broadcastLoop_failures SendMessage object p.overlay p.Node
  have hp := sendResults_peers SendMessage object p.overlay p.Node
  have hl := length_failed_add_delivered (sendResults SendMessage object p.overlay p.Node)
  have hlen : (sendResults SendMessage object p.overlay p.Node).length = p.overlay.length := by
    rw [← List.length_map (sendResults SendMessage object p.overlay p.Node) (fun r => r.1), hp]
  refine ⟨hs, ?_, hp, hf, ?_, ?_, ?_⟩
  · unfold BroadcastObject
    simp only [hs, List.length_map]
  · unfold BroadcastObject
    simp only [hf, length_filterMap_failed]
  · omega
  · intro hnodup
    unfold BroadcastObject
    simp only [hs, List.map_map]
    exact hnodup

/-- Witness of C6: three peers, the network fails the second send: three sends in snapshot
order, one logged failure, for the second peer. -/
theorem BroadcastObject_sends_each_peer_once_witness :
    sendsOf (BroadcastObject secondSendFails threePeers sampleAccount).2
        = [("10.0.0.1:6091", sampleAccount), ("10.0.0.2:6091", sampleAccount),
           ("10.0.0.3:6091", sampleAccount)]
    ∧ failuresOf (BroadcastObject secondSendFails threePeers sampleAccount).2
        = [("10.0.0.2:6091", [2], Error.send 7)] :=
  ⟨(BroadcastObject_sends_each_peer_once secondSendFails threePeers sampleAccount).1,
   (BroadcastObject_sends_each_peer_once secondSendFails threePeers sampleAccount).2.2.2.1⟩

/-! ## The walk after appends -/

theorem Put_ok (b : Bucket) (key value : Bytes) (h : (b.Put key value).2 = none) (k : Bytes) :
    (b.Put key value).1.Get k = if k = key then some value else b.Get k := by
  unfold Bucket.Put at h ⊢
  split_ifs at h ⊢ <;> simp_all [Bucket.Get]

theorem Put_ok_key (b : Bucket) (key value : Bytes) (h : (b.Put key value).2 = none) :
    key ≠ [] := by
  intro hk
  subst hk
  simp [Bucket.Put] at h

theorem putBlockRecords_cases (b : Bucket) (hash record height : Bytes) :
    ((putBlockRecords b hash record height).2 ≠ none ∧ (putBlockRecords b hash record height).1 = b)
    ∨ ((putBlockRecords b hash record height).2 = none ∧ hash ≠ [] ∧
        ∀ k, (putBlockRecords b hash record height).1.Get k
          = if k = keyB then some height else if k = keyL then some hash
            else if k = hash then some record else b.Get k) := by
  unfold putBlockRecords
  split
  · exact Or.inl ⟨by simp, rfl⟩
  · rename_i b1 h1
    split
    · exact Or.inl ⟨by simp, rfl⟩
    · rename_i b2 h2
      split
      · exact Or.inl ⟨by simp, rfl⟩
      · rename_i b3 h3
        have e1 : (b.Put hash record).2 = none := by rw [h1]
        have e2 : (b1.Put keyL hash).2 = none := by rw [h2]
        have e3 : (b2.Put keyB height).2 = none := by rw [h3]
        refine Or.inr ⟨rfl, Put_ok_key _ _ _ e1, fun k => ?_⟩
        have g1 := Put_ok _ _ _ e1 k
        have g2 := Put_ok _ _ _ e2 k
        have g3 := Put_ok _ _ _ e3 k
        rw [h1] at g1
        rw [h2] at g2
        rw [h3] at g3
        simp only at g1 g2 g3 ⊢
        rw [g3, g2, g1]

theorem specPersist_fst (blk : Block) (db : DB) : (specPersist blk db).1.1 = blk.Hash := by
  unfold specPersist
  split
  · split <;> rfl
  · rfl

theorem specPersist_holdsGenesis (blk : Block) (db : DB) (b : Bucket) (t : Bytes)
    (hopen : db.opened = true) (hb : db.store.blocks = some b) (hg : holdsGenesis b)
    (hh : blk.Hash = 2 :: 1 :: t) :
    (specPersist blk db).2.opened = true
      ∧ ∃ b1, (specPersist blk db).2.store.blocks = some b1 ∧ holdsGenesis b1 := by
  unfold specPersist
  rw [if_pos hopen, hb, Option.getD_some]
  generalize FormatInt (int64 (blk.Height : Int)) = height
  generalize blk.Serialize = record
  have hc := putBlockRecords_cases b blk.Hash record height
  split
  · exact ⟨hopen, b, hb, hg⟩
  · rename_i b3 h3
    rw [h3] at hc
    rcases hc with ⟨hne, _⟩ | ⟨_, _, hget⟩
    · exact absurd rfl hne
    · simp only at hget
      have h0 : genesis.Hash = [2, 0, 0, 1, 1, 99, 0, 0] := by decide
      refine ⟨hopen, b3, rfl, ?_, ?_, ?_⟩
      · have e1 : genesis.Hash ≠ keyB := by decide
        have e2 : genesis.Hash ≠ keyL := by decide
        have e3 : genesis.Hash ≠ blk.Hash := by
          rw [hh, h0]
          simp
        rw [hget, if_neg e1, if_neg e2, if_neg e3]
        exact hg.1
      · have e1 : ([] : Bytes) ≠ keyB := by decide
        have e2 : ([] : Bytes) ≠ keyL := by decide
        have e3 : ([] : Bytes) ≠ blk.Hash := by
          rw [hh]
          simp
        rw [hget, if_neg e1, if_neg e2, if_neg e3]
        exact hg.2.1
      · have e1 : keyL ≠ keyB := by decide
        refine ⟨1 :: t, ?_⟩
        rw [hget, if_neg e1, if_pos rfl, hh]

theorem AddBlock_cursorAtGenesis (bc : Blockchain) (txs : List Transaction) (start stop : Int)
    (h : cursorAtGenesis bc) :
    ∃ bc1 lg, AddBlock specModel bc txs start stop = Outcome.ok (bc1, lg)
      ∧ cursorAtGenesis bc1 ∧ ∃ t, bc1.Tip = 2 :: 1 :: t := by
  obtain ⟨hopen, hcur, b, hb, hg⟩ := h
  obtain ⟨t, ht⟩ := hg.2.2
  obtain ⟨t1, hhash⟩ : ∃ t1, (blockToAdd specModel txs (b.Get keyL) (b.Get keyB)).Hash
      = 2 :: 1 :: t1 := by
    refine ⟨2 :: (encBytes t ++ (encNat
      (uint64 (int64 ((ParseInt ((b.Get keyB).getD [])).1 + 1))) ++ encTxs txs)), ?_⟩
    simp [blockToAdd, specModel, ht, specNewBlock, contentHash, encBytes]
  have hp := specPersist_holdsGenesis
    (blockToAdd specModel txs (b.Get keyL) (b.Get keyB)) bc.Db b t1 hopen hb hg hhash
  unfold AddBlock readTipAndHeight
  simp only [hopen, ↓reduceIte, hb]
  refine ⟨_, _, rfl, ⟨hp.1, hcur, hp.2⟩, t1, ?_⟩
  show (specPersist (blockToAdd specModel txs (b.Get keyL) (b.Get keyB)) bc.Db).1.1 = _
  rw [specPersist_fst, hhash]

theorem AddBlocks_cursorAtGenesis (calls : List (List Transaction × Int × Int))
    (bc : Blockchain) (h : cursorAtGenesis bc) :
    ∃ bc1, AddBlocks specModel bc calls = Outcome.ok bc1 ∧ cursorAtGenesis bc1
      ∧ (calls ≠ [] → ∃ t, bc1.Tip = 2 :: 1 :: t) := by
  induction calls generalizing bc with
  | nil => exact ⟨bc, rfl, h, fun hne => absurd rfl hne⟩
  | cons call rest ih =>
    obtain ⟨bc1, lg, hadd, hinv, t, htip⟩ := AddBlock_cursorAtGenesis bc call.1 call.2.1 call.2.2 h
    obtain ⟨bc2, hrest, hinv2, htip2⟩ := ih bc1 hinv
    refine ⟨bc2, ?_, hinv2, fun _ => ?_⟩
    · unfold AddBlocks
      simp only [hadd]
      exact hrest
    · cases rest with
      | nil =>
        simp only [AddBlocks, Outcome.ok.injEq] at hrest
        rw [← hrest]
        exact ⟨t, htip⟩
      | cons c cs => exact htip2 (by simp)

/-- Whatever the collaborators do, `AddBlock` leaves the cursor of the handle where it was. -/
theorem AddBlock_keeps_cursor (E : Collaborators) (bc bc1 : Blockchain) (txs : List Transaction)
    (start stop : Int) (lg : List LogEntry)
    (h : AddBlock E bc txs start stop = Outcome.ok (bc1, lg)) : bc1.cursor = bc.cursor := by
  unfold AddBlock at h
  split at h
  · simp at h
  · simp at h
  · simp only [Outcome.ok.injEq, Prod.mk.injEq] at h
    rw [← h.1]

/-- Whatever the collaborators do, the handle that `CreateBlockchain` returns has its cursor on
its tip. -/
theorem CreateBlockchain_cursor_on_tip (E : Collaborators) (fs : FileSystem)
    (dbFile dataDir : String) (bc : Blockchain)
    (h : (CreateBlockchain E fs dbFile dataDir).2 = Outcome.ok bc) : bc.cursor = bc.Tip := by
  unfold CreateBlockchain at h
  split at h
  · simp at h
  · split at h
    · simp at h
    · simp only at h
      split at h
      · simp at h
      · split at h
        · simp at h
        · simp only [Outcome.ok.injEq] at h
          rw [← h]

theorem createdChain_cursorAtGenesis : cursorAtGenesis createdChain :=
  ⟨rfl, rfl, createdBlocks, rfl, by decide, by decide, ⟨_, rfl⟩⟩

/-- C1, the code on the chain just created: after any number of `AddBlock` calls made one after
another on the handle that `CreateBlockchain` returned, the cursor of the handle is still the
hash of the genesis block: `Next` returns the genesis block first and leaves the cursor empty,
and the call after that panics. Once a block was appended the tip is not the cursor, and the
appended blocks are not returned. -/
theorem Next_after_appends_returns_genesis (calls : List (List Transaction × Int × Int)) :
    (CreateBlockchain specModel noFiles "blocace.db" "data").2 = Outcome.ok createdChain
    ∧ ∃ bc, AddBlocks specModel createdChain calls = Outcome.ok bc
      ∧ Next specModel bc = Outcome.ok (some genesis, { bc with cursor := [] }, [])
      ∧ Next specModel { bc with cursor := [] } = Outcome.panic
      ∧ (calls ≠ [] → bc.cursor = genesis.Hash ∧ bc.Tip ≠ genesis.Hash) := by
  obtain ⟨bc, hadd, ⟨hopen, hcur, b, hb, hg⟩, htip⟩ :=
    AddBlocks_cursorAtGenesis calls createdChain createdChain_cursorAtGenesis
  refine ⟨rfl, bc, hadd, ?_, ?_, fun hne => ⟨hcur, ?_⟩⟩
  · unfold Next readAtCursor
    simp only [hopen, ↓reduceIte, hb, hcur, hg.1, Option.getD_some]
    have hd : specModel.DeserializeBlock genesis.Serialize = Outcome.ok (some genesis) := by
      decide
    simp only [hd]
    rfl
  · unfold Next readAtCursor
    simp only [hopen, ↓reduceIte, hb, hg.2.1, Option.getD_none]
    have hd : specModel.DeserializeBlock [] = Outcome.panic := by decide
    simp only [hd]
  · obtain ⟨t, ht⟩ := htip hne
    rw [ht]
    have h0 : genesis.Hash = [2, 0, 0, 1, 1, 99, 0, 0] := by decide
    rw [h0]
    simp

end Blocace
